import Mathlib

/-!
Verification of the MSI Mystic Light firmware tool (`msi_firmware_dumper.py`,
`msi_z890_bricker.py`) against its natural-language specification.

The Python sources are shallowly embedded: pure packet construction becomes
pure functions over `List Nat` (bytes as naturals, masked with `% 256` where
the source masks with `& 0xFF`); the stateful bulk-transfer loops become
explicit state-passing recursion over a response oracle
(`Nat → Option (List Nat)`, `none` meaning an absent response, mirroring a
`hid.read` timeout); device interaction is recorded as command traces.
-/

namespace MSIDump

/-! ## Opcodes (module-level constants of `msi_firmware_dumper.py`) -/

def CMD_UPDATE_APROM : Nat := 0xA0
def CMD_ERASE_ALL : Nat := 0xA3
def CMD_SYNC_PACKNO : Nat := 0xA4
def CMD_READ_FLASH : Nat := 0xA5

/-! ## Response classification

In the bulk read loop of `MSIFirmwareDumper.dump_firmware` every response is
handled by exactly one of three branches:

* `if response and len(response) >= data_offset + actual_chunk_size:` …
  * `if resp[0] == 0xFB and resp[1] == 0x4F:` — the error-sentinel branch,
  * otherwise the data branch (bytes are appended),
* `else:` — the absent (or too-short) response branch.

`classify_response` reifies that branch selection.  `none` models a `hid`
read that returned nothing; `some []` models an empty list, which is falsy
in Python just like `None`.
-/

inductive ChunkClass
  | Data
  | Timeout
  | ErrorSentinel
deriving DecidableEq, Repr

def classify_response (data_offset chunk : Nat) (resp : Option (List Nat)) :
    ChunkClass :=
  match resp with
  | none => ChunkClass.Timeout
  | some r =>
    if r ≠ [] ∧ data_offset + chunk ≤ r.length then
      if r.getD 0 0 = 0xFB ∧ r.getD 1 0 = 0x4F then ChunkClass.ErrorSentinel
      else ChunkClass.Data
    else ChunkClass.Timeout

/-! ## Packet construction

`write_flash_chunk` builds its 65-byte packet by zero-initialising
`cmd = [0x00] * 65` and assigning the declared fields; `sync_packno` builds
its packet by list concatenation and zero-extension.  `set_from` models the
Python loop `for i, b in enumerate(data[:chunk_len]): cmd[18 + i] = b`.
-/

def set_from : List Nat → Nat → List Nat → List Nat
  | l, _, [] => l
  | l, i, b :: bs => set_from (l.set i b) (i + 1) bs

def write_flash_chunk_packet (address : Nat) (data : List Nat)
    (packet_num : Nat) : List Nat :=
  let chunk_len := min data.length 47
  let c := List.replicate 65 0
  let c := c.set 1 CMD_UPDATE_APROM
  let c := c.set 9 (packet_num % 256)
  let c := c.set 10 (packet_num / 256 % 256)
  let c := c.set 11 (packet_num / 65536 % 256)
  let c := c.set 12 (packet_num / 16777216 % 256)
  let c := c.set 13 (address % 256)
  let c := c.set 14 (address / 256 % 256)
  let c := c.set 15 (address / 65536 % 256)
  let c := c.set 16 (address / 16777216 % 256)
  let c := c.set 17 chunk_len
  set_from c 18 (data.take chunk_len)

def sync_packno_packet (packet_num : Nat) : List Nat :=
  [0x00, CMD_SYNC_PACKNO, 0x00, 0x00, 0x00] ++
    [packet_num % 256, packet_num / 256 % 256, 0x00, 0x00] ++
    List.replicate 56 0

/-! ### Helper lemmas about `List.getD` and `set_from` -/

theorem getD_set_ne (l : List Nat) {i j : Nat} (v : Nat) (h : j ≠ i) :
    (l.set j v).getD i 0 = l.getD i 0 := by
  simp [List.getD_eq_getElem?_getD, List.getElem?_set_ne h]

theorem getD_set_self (l : List Nat) {j : Nat} (v : Nat) (h : j < l.length) :
    (l.set j v).getD j 0 = v := by
  simp [List.getD_eq_getElem?_getD, List.getElem?_set_self h]

theorem getD_replicate_zero (n i : Nat) :
    (List.replicate n (0 : Nat)).getD i 0 = 0 := by
  simp only [List.getD_eq_getElem?_getD, List.getElem?_replicate]
  split <;> rfl

theorem length_set_from (data : List Nat) :
    ∀ (l : List Nat) (i : Nat), (set_from l i data).length = l.length := by
  induction data with
  | nil => intro l i; rfl
  | cons b bs ih =>
    intro l i
    simp [set_from, ih, List.length_set]

theorem getD_set_from_lt (data : List Nat) :
    ∀ (l : List Nat) (i j : Nat), j < i →
      (set_from l i data).getD j 0 = l.getD j 0 := by
  induction data with
  | nil => intro l i j _; rfl
  | cons b bs ih =>
    intro l i j hj
    rw [set_from, ih (l.set i b) (i + 1) j (Nat.lt_succ_of_lt hj),
      getD_set_ne l b (Nat.ne_of_gt hj)]

theorem getD_set_from_ge (data : List Nat) :
    ∀ (l : List Nat) (i j : Nat), i + data.length ≤ j →
      (set_from l i data).getD j 0 = l.getD j 0 := by
  induction data with
  | nil => intro l i j _; rfl
  | cons b bs ih =>
    intro l i j hj
    simp only [List.length_cons] at hj
    rw [set_from, ih (l.set i b) (i + 1) j (by omega),
      getD_set_ne l b (by omega)]

theorem write_packet_unused (address : Nat) (data : List Nat) (packet_num : Nat)
    (i : Nat) (h1 : i ≠ 1) (h9 : ¬(9 ≤ i ∧ i ≤ 17))
    (hd : i < 18 ∨ 18 + min data.length 47 ≤ i) :
    (write_flash_chunk_packet address data packet_num).getD i 0 = 0 := by
  simp only [write_flash_chunk_packet]
  have hlen : (data.take (min data.length 47)).length = min data.length 47 := by
    rw [List.length_take]; omega
  rcases hd with hd | hd
  · rw [getD_set_from_lt _ _ _ _ hd, getD_set_ne, getD_set_ne, getD_set_ne,
      getD_set_ne, getD_set_ne, getD_set_ne, getD_set_ne, getD_set_ne,
      getD_set_ne, getD_set_ne, getD_replicate_zero]
    all_goals omega
  · rw [getD_set_from_ge _ _ _ _ (by rw [hlen]; omega), getD_set_ne, getD_set_ne,
      getD_set_ne, getD_set_ne, getD_set_ne, getD_set_ne, getD_set_ne,
      getD_set_ne, getD_set_ne, getD_set_ne, getD_replicate_zero]
    all_goals omega

theorem write_packet_length (address : Nat) (data : List Nat)
    (packet_num : Nat) :
    (write_flash_chunk_packet address data packet_num).length = 65 := by
  simp [write_flash_chunk_packet, length_set_from, List.length_set]

theorem write_packet_opcode (address : Nat) (data : List Nat)
    (packet_num : Nat) :
    (write_flash_chunk_packet address data packet_num).getD 1 0 =
      CMD_UPDATE_APROM := by
  simp only [write_flash_chunk_packet]
  rw [getD_set_from_lt _ _ _ _ (by omega), getD_set_ne, getD_set_ne,
    getD_set_ne, getD_set_ne, getD_set_ne, getD_set_ne, getD_set_ne,
    getD_set_ne, getD_set_ne, getD_set_self]
  · simp
  all_goals omega

theorem sync_packet_shape (packet_num : Nat) :
    (sync_packno_packet packet_num).length = 65 ∧
    (sync_packno_packet packet_num).getD 0 0 = 0 ∧
    (sync_packno_packet packet_num).getD 1 0 = CMD_SYNC_PACKNO ∧
    ∀ i, i ≠ 0 → i ≠ 1 → i ≠ 5 → i ≠ 6 →
      (sync_packno_packet packet_num).getD i 0 = 0 := by
  refine ⟨by simp [sync_packno_packet], rfl, rfl, ?_⟩
  intro i h0 h1 h5 h6
  simp only [sync_packno_packet, List.cons_append, List.nil_append]
  rcases i with _ | _ | _ | _ | _ | _ | _ | _ | _ | i
  · exact absurd rfl h0
  · exact absurd rfl h1
  · rfl
  · rfl
  · rfl
  · exact absurd rfl h5
  · exact absurd rfl h6
  · rfl
  · rfl
  · simp only [List.getD_cons_succ, getD_replicate_zero]

/-- C5: for the ISP packet constructors (`write_flash_chunk`, `sync_packno`)
every constructed command packet is exactly 65 bytes long, byte 0 is the
report id (0x00), byte 1 is the requested opcode, and every byte not
occupied by a declared field (for `write_flash_chunk`: packet number at
9–12, address at 13–16, chunk length at 17, data at 18 … 18+len−1; for
`sync_packno`: packet number at 5–6) is zero. -/
theorem packet_construction_wellformed :
    (∀ (address : Nat) (data : List Nat) (packet_num : Nat),
      (write_flash_chunk_packet address data packet_num).length = 65 ∧
      (write_flash_chunk_packet address data packet_num).getD 0 0 = 0 ∧
      (write_flash_chunk_packet address data packet_num).getD 1 0 =
        CMD_UPDATE_APROM ∧
      (∀ i, 2 ≤ i → i ≤ 8 →
        (write_flash_chunk_packet address data packet_num).getD i 0 = 0) ∧
      (∀ i, 18 + min data.length 47 ≤ i →
        (write_flash_chunk_packet address data packet_num).getD i 0 = 0)) ∧
    (∀ packet_num : Nat,
      (sync_packno_packet packet_num).length = 65 ∧
      (sync_packno_packet packet_num).getD 0 0 = 0 ∧
      (sync_packno_packet packet_num).getD 1 0 = CMD_SYNC_PACKNO ∧
      ∀ i, i ≠ 0 → i ≠ 1 → i ≠ 5 → i ≠ 6 →
        (sync_packno_packet packet_num).getD i 0 = 0) := by
  constructor
  · intro address data packet_num
    refine ⟨write_packet_length address data packet_num, ?_,
      write_packet_opcode address data packet_num, ?_, ?_⟩
    · exact write_packet_unused address data packet_num 0 (by omega)
        (by omega) (Or.inl (by omega))
    · intro i h2 h8
      exact write_packet_unused address data packet_num i (by omega)
        (by omega) (Or.inl (by omega))
    · intro i hi
      exact write_packet_unused address data packet_num i (by omega)
        (by omega) (Or.inr hi)
  · exact sync_packet_shape

/-- Witness for C5: a concrete write-chunk packet (address 4096, a full
47-byte data chunk, packet number 3) and a concrete sync packet. -/
theorem packet_construction_wellformed_witness :
    (write_flash_chunk_packet 4096 (List.replicate 47 5) 3).getD 2 0 = 0 ∧
    (write_flash_chunk_packet 4096 (List.replicate 47 5) 3).getD 65 0 = 0 ∧
    (sync_packno_packet 7).getD 9 0 = 0 :=
  ⟨(packet_construction_wellformed.1 4096 (List.replicate 47 5) 3).2.2.2.1
      2 (by decide) (by decide),
    (packet_construction_wellformed.1 4096 (List.replicate 47 5) 3).2.2.2.2
      65 (by decide),
    (packet_construction_wellformed.2 7).2.2.2 9 (by decide) (by decide)
      (by decide) (by decide)⟩

/-- C6 (amended): every response is classified by the bulk read loop into
exactly one of `Data`, `Timeout` (absent, empty or too-short response) and
`ErrorSentinel`, and a response is classified `ErrorSentinel` iff it is
present, at least `data_offset + chunk` bytes long, and its first two bytes
equal the fixed marker 0xFB 0x4F.  (The claim's "ErrorSentinel iff first
two bytes equal the marker" omits the length precondition: the loop checks
the marker only after the length test.) -/
theorem classify_response_trichotomy_and_sentinel (data_offset chunk : Nat)
    (resp : Option (List Nat)) :
    ((classify_response data_offset chunk resp = ChunkClass.Data ∧
        classify_response data_offset chunk resp ≠ ChunkClass.Timeout ∧
        classify_response data_offset chunk resp ≠ ChunkClass.ErrorSentinel) ∨
      (classify_response data_offset chunk resp = ChunkClass.Timeout ∧
        classify_response data_offset chunk resp ≠ ChunkClass.Data ∧
        classify_response data_offset chunk resp ≠ ChunkClass.ErrorSentinel) ∨
      (classify_response data_offset chunk resp = ChunkClass.ErrorSentinel ∧
        classify_response data_offset chunk resp ≠ ChunkClass.Data ∧
        classify_response data_offset chunk resp ≠ ChunkClass.Timeout)) ∧
    (classify_response data_offset chunk resp = ChunkClass.ErrorSentinel ↔
      ∃ r, resp = some r ∧ r ≠ [] ∧ data_offset + chunk ≤ r.length ∧
        r.getD 0 0 = 0xFB ∧ r.getD 1 0 = 0x4F) := by
  constructor
  · cases h : classify_response data_offset chunk resp <;> simp [h]
  · constructor
    · intro h
      cases resp with
      | none => simp [classify_response] at h
      | some r =>
        refine ⟨r, rfl, ?_⟩
        simp only [classify_response] at h
        by_cases hlen : r ≠ [] ∧ data_offset + chunk ≤ r.length
        · rw [if_pos hlen] at h
          by_cases hmark : r.getD 0 0 = 0xFB ∧ r.getD 1 0 = 0x4F
          · exact ⟨hlen.1, hlen.2, hmark.1, hmark.2⟩
          · rw [if_neg hmark] at h; exact absurd h (by simp)
        · rw [if_neg hlen] at h; exact absurd h (by simp)
    · rintro ⟨r, rfl, hne, hlen, h0, h1⟩
      simp only [List.getD_eq_getElem?_getD] at h0 h1
      simp [classify_response, hne, hlen, h0, h1]

/-- C6 counterexample: a present but short response whose first two bytes
equal the error marker 0xFB 0x4F is classified by the bulk read loop as the
absent/short (`Timeout`) case, not as `ErrorSentinel` — the classification
is not determined by the first two bytes alone. -/
theorem classify_short_sentinel_counterexample :
    classify_response 9 55 (some [0xFB, 0x4F]) = ChunkClass.Timeout ∧
    ([0xFB, 0x4F] : List Nat).getD 0 0 = 0xFB ∧
    ([0xFB, 0x4F] : List Nat).getD 1 0 = 0x4F := by
  decide

/-! ## The bulk read loop of `dump_firmware`

`dump_loop` embeds the `while address < size and consecutive_errors <
max_consecutive_errors:` loop (the chunk-capture loop of
`MSIFirmwareDumper.dump_firmware`).  The response to the `n`-th loop
iteration's read command is `oracle n`; `fuel` bounds the recursion (the
theorems below either supply enough fuel for the loop to reach its Python
exit condition, or hold for every fuel).  The issued read commands are
recorded in `sent`.
-/

inductive Cmd
  | sync (packet_num : Nat)
  | read (address : Nat)
  | writeChunk (address : Nat) (data : List Nat) (packet_num : Nat)
  | eraseAll
  | gotoLdrom
deriving DecidableEq, Repr

structure DumpState where
  firmware : List Nat
  address : Nat
  consec : Nat
  fb4f : Nat
  sent : List Cmd
deriving DecidableEq, Repr

def extract_chunk (data_offset chunk : Nat) (r : List Nat) : List Nat :=
  (r.drop data_offset).take chunk

def dump_loop (data_offset chunk size maxc maxfb : Nat)
    (oracle : Nat → Option (List Nat)) :
    Nat → Nat → DumpState → DumpState
  | 0, _, s => s
  | fuel + 1, n, s =>
    if s.address < size ∧ s.consec < maxc then
      let s0 := { s with sent := s.sent ++ [Cmd.read s.address] }
      match classify_response data_offset chunk (oracle n) with
      | ChunkClass.ErrorSentinel =>
        if maxfb < s0.fb4f + 1 then { s0 with fb4f := s0.fb4f + 1 }
        else
          dump_loop data_offset chunk size maxc maxfb oracle fuel (n + 1)
            { s0 with fb4f := s0.fb4f + 1, consec := s0.consec + 1 }
      | ChunkClass.Data =>
        dump_loop data_offset chunk size maxc maxfb oracle fuel (n + 1)
          { s0 with
            firmware := s0.firmware ++
              extract_chunk data_offset chunk ((oracle n).getD [])
            address := s0.address + chunk
            consec := 0 }
      | ChunkClass.Timeout =>
        dump_loop data_offset chunk size maxc maxfb oracle fuel (n + 1)
          { s0 with consec := s0.consec + 1 }
    else s

/-! ## Response-layout autodetection and the full `dump_firmware` model

`detect_offset` embeds the `for test_offset in [1, 5, 8, 9, 12, 16]:` scan
over the probe response; `dump_firmware_model` embeds
`MSIFirmwareDumper.dump_firmware` end to end: the `in_ldrom` guard, the
initial `sync_packno(1)`, the probe read, the FB 4F probe check (which
runs `debug_read_response` — recorded as `diagnostics := true` — and
returns without reading any further chunk), the layout autodetection, the
bulk loop, and the final `len(firmware) > 0` success test.
-/

def detect_offset_scan (r : List Nat) (default_off : Nat) : List Nat → Nat
  | [] => default_off
  | t :: ts =>
    if t + 4 ≤ r.length ∧ (r.drop t).take 4 ≠ [0, 0, 0, 0] ∧
        (r.drop t).take 4 ≠ [0xFF, 0xFF, 0xFF, 0xFF] ∧ t ≠ 0 ∧ t ≠ 1 then t
    else detect_offset_scan r default_off ts

def detect_offset (r : List Nat) (default_off : Nat) : Nat :=
  detect_offset_scan r default_off [1, 5, 8, 9, 12, 16]

structure DumpRun where
  data : Option (List Nat)
  cmds : List Cmd
  diagnostics : Bool
deriving DecidableEq, Repr

def dump_firmware_model (in_ldrom : Bool) (size data_offset0 : Nat)
    (oracle : Nat → Option (List Nat)) (fuel : Nat) : DumpRun :=
  if !in_ldrom then ⟨none, [], false⟩
  else
    let chunk0 := if 64 - data_offset0 < 32 then 48 else 64 - data_offset0
    match oracle 0 with
    | none => ⟨none, [Cmd.sync 1, Cmd.read 0], false⟩
    | some resp =>
      if resp = [] then ⟨none, [Cmd.sync 1, Cmd.read 0], false⟩
      else if 2 ≤ resp.length ∧ resp.getD 0 0 = 0xFB ∧ resp.getD 1 0 = 0x4F then
        ⟨none, [Cmd.sync 1, Cmd.read 0], true⟩
      else
        let off := detect_offset resp data_offset0
        let chunk := min chunk0 (resp.length - off)
        let final := dump_loop off chunk size 10 10 (fun n => oracle (n + 1))
          fuel 0 ⟨[], 0, 0, 0, []⟩
        ⟨if 0 < final.firmware.length then some final.firmware else none,
          [Cmd.sync 1, Cmd.read 0] ++ final.sent, false⟩

/-- `dump_with_retry` re-invokes `dump_firmware` until it returns `True`,
up to `max_retries` attempts; the second component counts how many times
`dump_firmware` was invoked.  `oracles a` is the response oracle seen by
attempt `a`. -/
def dump_with_retry_model (size data_offset0 fuel : Nat)
    (oracles : Nat → Nat → Option (List Nat)) :
    Nat → Nat → Bool × Nat
  | 0, made => (false, made)
  | k + 1, made =>
    if (dump_firmware_model true size data_offset0 (oracles made) fuel).data.isSome
    then (true, made + 1)
    else dump_with_retry_model size data_offset0 fuel oracles k (made + 1)

/-! ### Invariants of the bulk read loop -/

theorem classify_data_spec {data_offset chunk : Nat}
    {resp : Option (List Nat)}
    (h : classify_response data_offset chunk resp = ChunkClass.Data) :
    ∃ r, resp = some r ∧ data_offset + chunk ≤ r.length := by
  cases resp with
  | none => simp [classify_response] at h
  | some r =>
    refine ⟨r, rfl, ?_⟩
    simp only [classify_response] at h
    by_cases hlen : r ≠ [] ∧ data_offset + chunk ≤ r.length
    · exact hlen.2
    · rw [if_neg hlen] at h; exact absurd h (by simp)

theorem extract_chunk_length {data_offset chunk : Nat}
    {resp : Option (List Nat)}
    (h : classify_response data_offset chunk resp = ChunkClass.Data) :
    (extract_chunk data_offset chunk (resp.getD [])).length = chunk := by
  obtain ⟨r, rfl, hlen⟩ := classify_data_spec h
  simp only [Option.getD_some, extract_chunk, List.length_take,
    List.length_drop]
  omega

theorem dump_loop_all_data (data_offset chunk size maxc maxfb : Nat)
    (oracle : Nat → Option (List Nat)) (hmaxc : 0 < maxc)
    (hdata : ∀ n, classify_response data_offset chunk (oracle n) =
      ChunkClass.Data) :
    ∀ (fuel n : Nat) (fw : List Nat) (addr fb : Nat) (sent : List Cmd),
      size ≤ addr + fuel * chunk →
      ∃ t, dump_loop data_offset chunk size maxc maxfb oracle fuel n
          ⟨fw, addr, 0, fb, sent⟩ = t ∧
        t.firmware.length = fw.length + (t.address - addr) ∧
        addr ≤ t.address ∧ size ≤ t.address ∧
        chunk ∣ (t.address - addr) ∧
        (t.address < size + chunk ∨ t.address = addr) := by
  intro fuel
  induction fuel with
  | zero =>
    intro n fw addr fb sent hsz
    refine ⟨⟨fw, addr, 0, fb, sent⟩, rfl, by simp, Nat.le_refl addr,
      by show size ≤ addr; omega, by simp, Or.inr rfl⟩
  | succ fuel ih =>
    intro n fw addr fb sent hsz
    by_cases haddr : addr < size
    · have hstep : dump_loop data_offset chunk size maxc maxfb oracle
          (fuel + 1) n ⟨fw, addr, 0, fb, sent⟩ =
          dump_loop data_offset chunk size maxc maxfb oracle fuel (n + 1)
            ⟨fw ++ extract_chunk data_offset chunk ((oracle n).getD []),
              addr + chunk, 0, fb, sent ++ [Cmd.read addr]⟩ := by
        simp only [dump_loop, hdata n]
        rw [if_pos ⟨haddr, hmaxc⟩]
      obtain ⟨t, ht, hlen, hle, hsz2, hdvd, hdisj⟩ :=
        ih (n + 1) (fw ++ extract_chunk data_offset chunk ((oracle n).getD []))
          (addr + chunk) fb (sent ++ [Cmd.read addr])
          (by rw [Nat.succ_mul] at hsz; omega)
      refine ⟨t, hstep.trans ht, ?_, ?_, ?_, ?_, ?_⟩
      · rw [List.length_append, extract_chunk_length (hdata n)] at hlen
        omega
      · omega
      · exact hsz2
      · obtain ⟨k, hk⟩ := hdvd
        refine ⟨k + 1, ?_⟩
        rw [Nat.mul_succ]
        omega
      · rcases hdisj with hd | hd
        · exact Or.inl hd
        · exact Or.inl (by omega)
    · have hstep : dump_loop data_offset chunk size maxc maxfb oracle
          (fuel + 1) n ⟨fw, addr, 0, fb, sent⟩ =
          (⟨fw, addr, 0, fb, sent⟩ : DumpState) := by
        simp only [dump_loop]
        rw [if_neg (fun hc => haddr hc.1)]
      refine ⟨⟨fw, addr, 0, fb, sent⟩, hstep, by simp, Nat.le_refl addr,
        by show size ≤ addr; omega, by simp, Or.inr rfl⟩

theorem dump_loop_chunks (data_offset chunk size maxc maxfb : Nat)
    (oracle : Nat → Option (List Nat)) :
    ∀ (fuel n : Nat) (fw : List Nat) (addr consec fb : Nat)
      (sent : List Cmd),
      ∃ (t : DumpState) (l : List (List Nat)),
        dump_loop data_offset chunk size maxc maxfb oracle fuel n
          ⟨fw, addr, consec, fb, sent⟩ = t ∧
        t.firmware = fw ++ l.flatten ∧
        t.address = addr + chunk * l.length ∧
        (∀ x ∈ l, ∃ m, n ≤ m ∧
          classify_response data_offset chunk (oracle m) = ChunkClass.Data ∧
          x = extract_chunk data_offset chunk ((oracle m).getD [])) ∧
        ∃ reads, t.sent = sent ++ reads ∧
          ∀ c ∈ reads, ∃ a, c = Cmd.read a := by
  intro fuel
  induction fuel with
  | zero =>
    intro n fw addr consec fb sent
    exact ⟨⟨fw, addr, consec, fb, sent⟩, [], rfl, by simp, by simp,
      by simp, ⟨[], by simp, by simp⟩⟩
  | succ fuel ih =>
    intro n fw addr consec fb sent
    by_cases hguard : addr < size ∧ consec < maxc
    · cases hc : classify_response data_offset chunk (oracle n) with
      | Data =>
        have hstep : dump_loop data_offset chunk size maxc maxfb oracle
            (fuel + 1) n ⟨fw, addr, consec, fb, sent⟩ =
            dump_loop data_offset chunk size maxc maxfb oracle fuel (n + 1)
              ⟨fw ++ extract_chunk data_offset chunk ((oracle n).getD []),
                addr + chunk, 0, fb, sent ++ [Cmd.read addr]⟩ := by
          simp only [dump_loop, hc]
          rw [if_pos hguard]
        obtain ⟨t, l, ht, hfw, haddr, hmem, reads, hsent, hreads⟩ :=
          ih (n + 1) (fw ++ extract_chunk data_offset chunk ((oracle n).getD []))
            (addr + chunk) 0 fb (sent ++ [Cmd.read addr])
        refine ⟨t, extract_chunk data_offset chunk ((oracle n).getD []) :: l,
          hstep.trans ht, ?_, ?_, ?_, Cmd.read addr :: reads, ?_, ?_⟩
        · rw [hfw, List.flatten_cons, List.append_assoc]
        · rw [haddr, List.length_cons, Nat.mul_succ]
          omega
        · intro x hx
          rcases List.mem_cons.mp hx with hx | hx
          · exact ⟨n, Nat.le_refl n, hc, hx⟩
          · obtain ⟨m, hm, hcm, hxm⟩ := hmem x hx
            exact ⟨m, by omega, hcm, hxm⟩
        · rw [hsent, List.append_assoc]
          rfl
        · intro c hcmem
          rcases List.mem_cons.mp hcmem with h | h
          · exact ⟨addr, h⟩
          · exact hreads c h
      | Timeout =>
        have hstep : dump_loop data_offset chunk size maxc maxfb oracle
            (fuel + 1) n ⟨fw, addr, consec, fb, sent⟩ =
            dump_loop data_offset chunk size maxc maxfb oracle fuel (n + 1)
              ⟨fw, addr, consec + 1, fb, sent ++ [Cmd.read addr]⟩ := by
          simp only [dump_loop, hc]
          rw [if_pos hguard]
        obtain ⟨t, l, ht, hfw, haddr, hmem, reads, hsent, hreads⟩ :=
          ih (n + 1) fw addr (consec + 1) fb (sent ++ [Cmd.read addr])
        refine ⟨t, l, hstep.trans ht, hfw, haddr, ?_,
          Cmd.read addr :: reads, ?_, ?_⟩
        · intro x hx
          obtain ⟨m, hm, hcm, hxm⟩ := hmem x hx
          exact ⟨m, by omega, hcm, hxm⟩
        · rw [hsent, List.append_assoc]
          rfl
        · intro c hcmem
          rcases List.mem_cons.mp hcmem with h | h
          · exact ⟨addr, h⟩
          · exact hreads c h
      | ErrorSentinel =>
        by_cases hbreak : maxfb < fb + 1
        · have hstep : dump_loop data_offset chunk size maxc maxfb oracle
              (fuel + 1) n ⟨fw, addr, consec, fb, sent⟩ =
              (⟨fw, addr, consec, fb + 1, sent ++ [Cmd.read addr]⟩ :
                DumpState) := by
            simp only [dump_loop, hc]
            rw [if_pos hguard, if_pos hbreak]
          refine ⟨_, [], hstep, by simp, by simp, by simp,
            [Cmd.read addr], rfl, ?_⟩
          intro c hcmem
          rcases List.mem_cons.mp hcmem with h | h
          · exact ⟨addr, h⟩
          · exact absurd h (List.not_mem_nil c)
        · have hstep : dump_loop data_offset chunk size maxc maxfb oracle
              (fuel + 1) n ⟨fw, addr, consec, fb, sent⟩ =
              dump_loop data_offset chunk size maxc maxfb oracle fuel (n + 1)
                ⟨fw, addr, consec + 1, fb + 1, sent ++ [Cmd.read addr]⟩ := by
            simp only [dump_loop, hc]
            rw [if_pos hguard, if_neg hbreak]
          obtain ⟨t, l, ht, hfw, haddr, hmem, reads, hsent, hreads⟩ :=
            ih (n + 1) fw addr (consec + 1) (fb + 1) (sent ++ [Cmd.read addr])
          refine ⟨t, l, hstep.trans ht, hfw, haddr, ?_,
            Cmd.read addr :: reads, ?_, ?_⟩
          · intro x hx
            obtain ⟨m, hm, hcm, hxm⟩ := hmem x hx
            exact ⟨m, by omega, hcm, hxm⟩
          · rw [hsent, List.append_assoc]
            rfl
          · intro c hcmem
            rcases List.mem_cons.mp hcmem with h | h
            · exact ⟨addr, h⟩
            · exact hreads c h
    · have hstep : dump_loop data_offset chunk size maxc maxfb oracle
          (fuel + 1) n ⟨fw, addr, consec, fb, sent⟩ =
          (⟨fw, addr, consec, fb, sent⟩ : DumpState) := by
        simp only [dump_loop]
        rw [if_neg hguard]
      exact ⟨⟨fw, addr, consec, fb, sent⟩, [], hstep, by simp, by simp,
        by simp, ⟨[], by simp, by simp⟩⟩

theorem flatten_length_const {l : List (List Nat)} {c : Nat}
    (h : ∀ x ∈ l, x.length = c) : l.flatten.length = c * l.length := by
  induction l with
  | nil => simp
  | cons x xs ih =>
    rw [List.flatten_cons, List.length_append, List.length_cons,
      h x (List.mem_cons_self x xs), Nat.mul_succ,
      ih (fun y hy => h y (List.mem_cons_of_mem x hy))]
    omega

/-- C1 (amended): with the loop parameters of `dump_firmware`
(`max_consecutive_errors = 10`, FB 4F ceiling 10) and enough fuel for the
loop to reach its own exit condition: (a) when every chunk response is
classified `Data`, the captured buffer's length is the least multiple of
the chunk size that is at least `size` — a multiple of `chunkSize` with
`size ≤ length < size + chunkSize`, so exactly `size` only when
`chunkSize ∣ size`, not for every requested size as claimed; (b) whenever
the loop stops short of `size` (in particular after
`max_consecutive_errors` consecutive non-`Data` responses), the buffer is
exactly the concatenation of the payloads extracted from the
`Data`-classified responses, shorter than `size` — the partial result is
preserved, never discarded. -/
theorem dump_loop_capture (data_offset chunk size fuel : Nat)
    (oracle : Nat → Option (List Nat)) (hchunk : 0 < chunk)
    (hsize : 0 < size) :
    ((∀ n, classify_response data_offset chunk (oracle n) =
        ChunkClass.Data) →
      size ≤ fuel * chunk →
      ∃ t, dump_loop data_offset chunk size 10 10 oracle fuel 0
          ⟨[], 0, 0, 0, []⟩ = t ∧
        chunk ∣ t.firmware.length ∧ size ≤ t.firmware.length ∧
        t.firmware.length < size + chunk) ∧
    (∀ t, dump_loop data_offset chunk size 10 10 oracle fuel 0
        ⟨[], 0, 0, 0, []⟩ = t →
      t.address < size →
      ∃ l : List (List Nat), t.firmware = l.flatten ∧
        t.firmware.length < size ∧
        ∀ x ∈ l, ∃ m,
          classify_response data_offset chunk (oracle m) =
            ChunkClass.Data ∧
          x = extract_chunk data_offset chunk ((oracle m).getD [])) := by
  constructor
  · intro hdata hfuel
    obtain ⟨t, ht, hlen, hle, hsz, hdvd, hdisj⟩ :=
      dump_loop_all_data data_offset chunk size 10 10 oracle (by omega)
        hdata fuel 0 [] 0 0 [] (by omega)
    simp only [List.length_nil, Nat.zero_add, Nat.sub_zero] at hlen hdvd
    refine ⟨t, ht, hlen ▸ hdvd, by omega, ?_⟩
    rcases hdisj with hd | hd
    · omega
    · omega
  · intro t ht hlt
    obtain ⟨t', l, ht', hfw, haddr, hmem, _⟩ :=
      dump_loop_chunks data_offset chunk size 10 10 oracle fuel 0 [] 0 0 0 []
    rw [ht] at ht'
    subst ht'
    simp only [List.nil_append, Nat.zero_add] at hfw haddr
    have hxlen : ∀ x ∈ l, x.length = chunk := by
      intro x hx
      obtain ⟨m, _, hc, hxe⟩ := hmem x hx
      rw [hxe]
      exact extract_chunk_length hc
    refine ⟨l, hfw, ?_, ?_⟩
    · rw [hfw, flatten_length_const hxlen]
      omega
    · intro x hx
      obtain ⟨m, _, hc, hxe⟩ := hmem x hx
      exact ⟨m, hc, hxe⟩

/-- Witness for C1: a concrete all-`Data` run with `data_offset = 9`,
`chunk = 55`, `size = 110` and fuel 2 satisfies both conjuncts. -/
theorem dump_loop_capture_witness :
    (0 : Nat) < 55 ∧ (0 : Nat) < 110 ∧
    (((∀ _n : Nat, classify_response 9 55 (some (List.replicate 64 1)) =
          ChunkClass.Data) →
        110 ≤ 2 * 55 →
        ∃ t : DumpState,
          dump_loop 9 55 110 10 10 (fun _ => some (List.replicate 64 1))
            2 0 ⟨[], 0, 0, 0, []⟩ = t ∧
          55 ∣ t.firmware.length ∧ 110 ≤ t.firmware.length ∧
          t.firmware.length < 110 + 55) ∧
      (∀ t : DumpState,
        dump_loop 9 55 110 10 10 (fun _ => some (List.replicate 64 1))
          2 0 ⟨[], 0, 0, 0, []⟩ = t →
        t.address < 110 →
        ∃ l : List (List Nat), t.firmware = l.flatten ∧
          t.firmware.length < 110 ∧
          ∀ x ∈ l, ∃ _m : Nat,
            classify_response 9 55 (some (List.replicate 64 1)) =
              ChunkClass.Data ∧
            x = extract_chunk 9 55
              ((some (List.replicate 64 1) : Option (List Nat)).getD []))) :=
  ⟨by decide, by decide,
    dump_loop_capture 9 55 110 2 (fun _ => some (List.replicate 64 1))
      (by decide) (by decide)⟩

/-- C1 counterexample: a full end-to-end `dump_firmware` run in which every
chunk response is classified `Data` (a 64-byte response of 0xAA bytes every
time) with requested `size = 1` captures 55 bytes, not exactly 1 byte: the
loop always appends a whole chunk, so the capture overshoots whenever the
chunk size does not divide the requested size. -/
theorem dump_exact_size_counterexample :
    ((dump_firmware_model true 1 9
        (fun _ => some (List.replicate 64 0xAA)) 5).data.map
      List.length) = some 55 ∧ (55 : Nat) ≠ 1 := by
  constructor
  · decide
  · decide

/-- Every device command issued by `dump_firmware` is the initial
`sync_packno(1)` or a chunk read — it never writes or erases. -/
theorem dump_firmware_model_cmds (in_ldrom : Bool) (size data_offset0 : Nat)
    (oracle : Nat → Option (List Nat)) (fuel : Nat) :
    ∀ c ∈ (dump_firmware_model in_ldrom size data_offset0 oracle fuel).cmds,
      c = Cmd.sync 1 ∨ ∃ a, c = Cmd.read a := by
  intro c hc
  simp only [dump_firmware_model] at hc
  split at hc
  · simp at hc
  · split at hc
    · simp only [DumpRun.mk.injEq] at hc
      simp at hc
      rcases hc with hc | hc
      · exact Or.inl hc
      · exact Or.inr ⟨0, hc⟩
    · rename_i resp _
      split at hc
      · simp at hc
        rcases hc with hc | hc
        · exact Or.inl hc
        · exact Or.inr ⟨0, hc⟩
      · split at hc
        · simp at hc
          rcases hc with hc | hc
          · exact Or.inl hc
          · exact Or.inr ⟨0, hc⟩
        · obtain ⟨t, l, ht, _, _, _, reads, hsent, hreads⟩ :=
            dump_loop_chunks (detect_offset resp data_offset0)
              (min (if 64 - data_offset0 < 32 then 48 else 64 - data_offset0)
                (resp.length - detect_offset resp data_offset0))
              size 10 10 (fun n => oracle (n + 1)) fuel 0 [] 0 0 0 []
          rw [ht] at hc
          simp only [List.nil_append] at hsent
          simp only [List.cons_append, List.nil_append, List.mem_cons] at hc
          rcases hc with hc | hc | hc
          · exact Or.inl hc
          · exact Or.inr ⟨0, hc⟩
          · obtain ⟨a, ha⟩ := hreads c (hsent ▸ hc)
            exact Or.inr ⟨a, ha⟩

/-- C2 (amended): a probe response carrying the FB 4F error marker makes
`dump_firmware` abort the job at once — zero bytes captured (`data =
none`), no chunk read issued beyond the probe (`cmds = [sync 1, read 0]`),
and the diagnostic response inspection (`debug_read_response`) triggered;
within the call this structural failure is not retried.  However — contrary
to the claim's "never retried by any layer" — `dump_with_retry` cannot
distinguish this failure from a transient one: with every attempt
read-protected it re-invokes `dump_firmware` `max_retries` times before
giving up. -/
theorem probe_sentinel_aborts (size data_offset0 fuel : Nat)
    (oracle : Nat → Option (List Nat)) (r : List Nat)
    (hp : oracle 0 = some r) (hlen : 2 ≤ r.length)
    (h0 : r.getD 0 0 = 0xFB) (h1 : r.getD 1 0 = 0x4F) :
    dump_firmware_model true size data_offset0 oracle fuel =
      ⟨none, [Cmd.sync 1, Cmd.read 0], true⟩ ∧
    ∀ (oracles : Nat → Nat → Option (List Nat)) (max_retries : Nat),
      (∀ a, oracles a 0 = some r) →
      dump_with_retry_model size data_offset0 fuel oracles max_retries 0 =
        (false, max_retries) := by
  have habort : ∀ (oracle2 : Nat → Option (List Nat)), oracle2 0 = some r →
      dump_firmware_model true size data_offset0 oracle2 fuel =
        ⟨none, [Cmd.sync 1, Cmd.read 0], true⟩ := by
    intro oracle2 hp2
    have hre : ¬(r = []) := by
      intro h
      rw [h] at hlen
      simp at hlen
    simp only [dump_firmware_model, hp2]
    rw [if_neg (by simp), if_neg hre, if_pos ⟨hlen, h0, h1⟩]
  refine ⟨habort oracle hp, ?_⟩
  intro oracles max_retries hall
  have hgen : ∀ (k made : Nat),
      dump_with_retry_model size data_offset0 fuel oracles k made =
        (false, made + k) := by
    intro k
    induction k with
    | zero => intro made; simp [dump_with_retry_model]
    | succ k ih =>
      intro made
      rw [dump_with_retry_model, habort (oracles made) (hall made)]
      simp only [Option.isSome_none, Bool.false_eq_true, if_false]
      rw [ih (made + 1)]
      exact congrArg _ (by omega)
  simpa using hgen max_retries 0

/-- Witness for C2: a device that answers every read with the two-byte
FB 4F marker.  The single dump aborts with no chunk read and diagnostics
triggered, and `dump_with_retry` with `max_retries = 3` invokes
`dump_firmware` three times before failing. -/
theorem probe_sentinel_aborts_witness :
    dump_firmware_model true 131072 9 (fun _ => some [0xFB, 0x4F]) 3 =
      ⟨none, [Cmd.sync 1, Cmd.read 0], true⟩ ∧
    dump_with_retry_model 131072 9 3 (fun _ _ => some [0xFB, 0x4F]) 3 0 =
      (false, 3) :=
  ⟨(probe_sentinel_aborts 131072 9 3 (fun _ => some [0xFB, 0x4F])
      [0xFB, 0x4F] rfl (by decide) (by decide) (by decide)).1,
    (probe_sentinel_aborts 131072 9 3 (fun _ => some [0xFB, 0x4F])
      [0xFB, 0x4F] rfl (by decide) (by decide) (by decide)).2
      (fun _ _ => some [0xFB, 0x4F]) 3 (fun _ => rfl)⟩

/-- C2 counterexample: the claim's "this structural failure is never
retried by any layer" is false — on a read-protected device (every probe
answers FB 4F) `dump_with_retry` invokes `dump_firmware` 3 times
(`max_retries`), not once. -/
theorem probe_sentinel_retry_counterexample :
    dump_with_retry_model 131072 9 3 (fun _ _ => some [0xFB, 0x4F]) 3 0 =
      (false, 3) ∧ (3 : Nat) ≠ 1 := by
  constructor
  · decide
  · decide

/-! ## The chunking loop of `flash_firmware`

`flash_firmware` writes the image in a `while offset < fw_size and errors
< max_errors:` loop: each iteration takes `firmware[offset:offset+47]`,
pads a short final chunk to 47 bytes with 0xFF, and calls
`write_flash_chunk(address, chunk, packet_num)`; on success `offset`,
`address` advance by 47 and `packet_num` by 1.  `flash_calls` lists, in
order, the `(address, padded chunk, packet_num)` triples passed to
`write_flash_chunk` in a run with zero per-chunk failures. -/

def pad_chunk (chunk_size : Nat) (c : List Nat) : List Nat :=
  if c.length < chunk_size then c ++ List.replicate (chunk_size - c.length) 0xFF
  else c

def flash_calls (address packet_num : Nat) (rest : List Nat) :
    List (Nat × List Nat × Nat) :=
  if h : rest = [] then []
  else
    (address, pad_chunk 47 (rest.take 47), packet_num) ::
      flash_calls (address + 47) (packet_num + 1) (rest.drop 47)
termination_by rest.length
decreasing_by
  simp only [List.length_drop]
  have := List.length_pos.mpr h
  omega

theorem pad_chunk_length {c : List Nat} (h : c.length ≤ 47) :
    (pad_chunk 47 c).length = 47 := by
  unfold pad_chunk
  split
  · simp only [List.length_append, List.length_replicate]
    omega
  · omega

theorem flash_calls_eq :
    ∀ (n : Nat) (fw : List Nat), fw.length ≤ n → ∀ (address packet_num : Nat),
      flash_calls address packet_num fw =
        (List.range ((fw.length + 46) / 47)).map
          (fun i => (address + 47 * i,
            pad_chunk 47 ((fw.drop (47 * i)).take 47), packet_num + i)) := by
  intro n
  induction n with
  | zero =>
    intro fw hfw address packet_num
    have : fw = [] := List.length_eq_zero.mp (by omega)
    subst this
    rw [flash_calls]
    simp
  | succ n ih =>
    intro fw hfw address packet_num
    by_cases hfe : fw = []
    · subst hfe
      rw [flash_calls]
      simp
    · rw [flash_calls, dif_neg hfe]
      have hpos : 0 < fw.length := List.length_pos.mpr hfe
      have hq : (fw.length + 46) / 47 = ((fw.drop 47).length + 46) / 47 + 1 := by
        simp only [List.length_drop]
        omega
      rw [ih (fw.drop 47) (by simp only [List.length_drop]; omega)
        (address + 47) (packet_num + 1)]
      rw [hq, List.range_succ_eq_map, List.map_cons, List.map_map]
      refine congrArg₂ List.cons ?_ ?_
      · simp
      · refine List.map_congr_left ?_
        intro i hi
        simp only [Function.comp_apply, Nat.succ_eq_add_one, List.drop_drop,
          Prod.mk.injEq]
        refine ⟨by omega, ?_, by omega⟩
        exact congrArg (fun k => pad_chunk 47 ((fw.drop k).take 47))
          (by omega)

/-- C3 (amended): flashing a 131072-byte (128 KiB) image with every
per-chunk write succeeding issues exactly ⌈131072/47⌉ = 2789 write-chunk
packets (the claim's figure 2790 is wrong: 47·2789 = 131083 ≥ 131072), the
packet numbers passed to `write_flash_chunk` are 1, 2, …, 2789 (strictly
increasing by 1 from 1), every chunk passed is exactly 47 bytes, and the
final chunk (index 2788, address 131036) is the last 36 firmware bytes
padded to the full 47-byte width with eleven 0xFF bytes. -/
theorem flash_131072_chunks (fw : List Nat) (h : fw.length = 131072) :
    (flash_calls 0 1 fw).length = 2789 ∧
    (flash_calls 0 1 fw).map (fun c => c.2.2) = List.range' 1 2789 ∧
    (∀ c ∈ flash_calls 0 1 fw, c.2.1.length = 47) ∧
    (flash_calls 0 1 fw).getD 2788 (0, [], 0) =
      (131036, fw.drop 131036 ++ List.replicate 11 0xFF, 2789) := by
  have he := flash_calls_eq fw.length fw (Nat.le_refl _) 0 1
  rw [h] at he
  have hq : (131072 + 46) / 47 = 2789 := by norm_num
  rw [hq] at he
  refine ⟨?_, ?_, ?_, ?_⟩
  · rw [he, List.length_map, List.length_range]
  · rw [he, List.map_map, List.range'_eq_map_range]
    refine List.map_congr_left ?_
    intro i _
    simp [Nat.add_comm]
  · intro c hc
    rw [he] at hc
    obtain ⟨i, _, rfl⟩ := List.mem_map.mp hc
    refine pad_chunk_length ?_
    simp only [List.length_take]
    omega
  · rw [he, List.getD_eq_getElem?_getD, List.getElem?_map,
      List.getElem?_range (by omega)]
    simp only [Option.map_some', Option.getD_some]
    have hd : (fw.drop (47 * 2788)).length = 36 := by
      simp only [List.length_drop, h]
    have ht : (fw.drop (47 * 2788)).take 47 = fw.drop (47 * 2788) :=
      List.take_of_length_le (by omega)
    rw [ht]
    refine congrArg₂ (fun x y => (x, y)) (by norm_num) ?_
    refine congrArg₂ (fun x y => (x, y)) ?_ (by norm_num)
    unfold pad_chunk
    rw [if_pos (by omega), hd]

/-- Witness for C3: the all-zero 131072-byte image. -/
theorem flash_131072_chunks_witness :
    (List.replicate 131072 (0 : Nat)).length = 131072 ∧
    ((flash_calls 0 1 (List.replicate 131072 0)).length = 2789 ∧
      (flash_calls 0 1 (List.replicate 131072 0)).map (fun c => c.2.2) =
        List.range' 1 2789 ∧
      (∀ c ∈ flash_calls 0 1 (List.replicate 131072 0), c.2.1.length = 47) ∧
      (flash_calls 0 1 (List.replicate 131072 0)).getD 2788 (0, [], 0) =
        (131036, (List.replicate 131072 0).drop 131036 ++
          List.replicate 11 0xFF, 2789)) :=
  ⟨List.length_replicate 131072 0,
    flash_131072_chunks (List.replicate 131072 0)
      (List.length_replicate 131072 0)⟩

/-- C3 counterexample: the number of `write_flash_chunk` calls for a
131072-byte image is 2789, not the 2790 stated by the claim. -/
theorem flash_131072_count_counterexample :
    (flash_calls 0 1 (List.replicate 131072 (0 : Nat))).length = 2789 ∧
    (2789 : Nat) ≠ 2790 := by
  constructor
  · rw [flash_calls_eq 131072 (List.replicate 131072 0)
        (List.length_replicate 131072 0).le 0 1,
      List.length_map, List.length_range, List.length_replicate]
  · decide

/-! ## Bootloader entry: `goto_ldrom`

`goto_ldrom` iterates its six transition methods.  Each loop iteration:
if no device handle is open it first reconnects to the APROM device
(skipping the method on failure); it then invokes the method — every
method performs one transport send (`send_feature_report` or `write`) —
closes the handle, waits for the bootloader to enumerate, and on
enumeration tries `connect_ldrom`, returning `True` on success.  There is
no check of `self.in_ldrom` anywhere in `goto_ldrom`.  The environment
fixes the outcome of each external test (handle open at entry, APROM
reconnect, bootloader enumeration, bootloader connect); the result pairs
the return value with the number of transport sends performed. -/

structure LdromEnv where
  connected : Bool
  aprom_connect_ok : Bool
  ldrom_enumerates : Bool
  ldrom_connect_ok : Bool
deriving DecidableEq, Repr

def goto_ldrom_go (env : LdromEnv) : Nat → Bool → Nat → Bool × Nat
  | 0, _, io => (false, io)
  | n + 1, conn, io =>
    if conn || env.aprom_connect_ok then
      if env.ldrom_enumerates then
        if env.ldrom_connect_ok then (true, io + 1)
        else goto_ldrom_go env n false (io + 1)
      else goto_ldrom_go env n false (io + 1)
    else goto_ldrom_go env n false io

def goto_ldrom_model (env : LdromEnv) : Bool × Nat :=
  goto_ldrom_go env 6 env.connected 0

/-- C4 (amended): `goto_ldrom` has no already-in-bootloader guard.  Called
while the session is already in Bootloader mode (handle open, bootloader
identity enumerable and connectable) it sends a transition command — one
transport send, not zero I/O — and then returns success after observing
the bootloader identity.  The call is harmless and succeeds, but it is not
the claimed zero-I/O no-op. -/
theorem goto_ldrom_already_bootloader (env : LdromEnv)
    (hc : env.connected = true) (he : env.ldrom_enumerates = true)
    (hk : env.ldrom_connect_ok = true) :
    goto_ldrom_model env = (true, 1) := by
  simp [goto_ldrom_model, goto_ldrom_go, hc, he, hk]

/-- Witness for C4. -/
theorem goto_ldrom_already_bootloader_witness :
    goto_ldrom_model ⟨true, true, true, true⟩ = (true, 1) :=
  goto_ldrom_already_bootloader ⟨true, true, true, true⟩ rfl rfl rfl

/-- C4 counterexample: invoked while already in Bootloader mode,
`goto_ldrom` returns success but performs 1 transport send, not the zero
transport I/O the claim requires. -/
theorem goto_ldrom_counterexample :
    goto_ldrom_model ⟨true, true, true, true⟩ = (true, 1) ∧
    (1 : Nat) ≠ 0 := by
  constructor
  · decide
  · decide

/-! ## `dump_and_verify` (the verified dump)

`dump_and_verify` runs `dump_firmware` twice.  Its outcome depends only on
the two dump results (`none` models a `dump_firmware` call that returned
`False`): first failed ⇒ give up; second failed ⇒ rename the first,
uncompared buffer to the output file and return `True`; both present ⇒
byte comparison, returning the first buffer on equality, otherwise logging
the NUMBER of differing bytes over `zip(data1, data2)` and keeping both
`.tmp1`/`.tmp2` files. -/

inductive VerifyOutcome
  | firstFailed
  | successUnverified (buf : List Nat)
  | verified (buf : List Nat)
  | mismatch (diffCount : Nat) (buf1 buf2 : List Nat)
deriving DecidableEq, Repr

def count_diffs (a b : List Nat) : Nat :=
  ((a.zip b).filter (fun p => decide (p.1 ≠ p.2))).length

def dump_and_verify_model (d1 d2 : Option (List Nat)) : VerifyOutcome :=
  match d1 with
  | none => VerifyOutcome.firstFailed
  | some b1 =>
    match d2 with
    | none => VerifyOutcome.successUnverified b1
    | some b2 =>
      if b1 = b2 then VerifyOutcome.verified b1
      else VerifyOutcome.mismatch (count_diffs b1 b2) b1 b2

def verify_success : VerifyOutcome → Bool
  | VerifyOutcome.firstFailed => false
  | VerifyOutcome.successUnverified _ => true
  | VerifyOutcome.verified _ => true
  | VerifyOutcome.mismatch _ _ _ => false

/-- Modelled from the spec: the list of all offsets at which the two
buffers differ (the spec requires `VerificationMismatch` to report every
such offset).  Used only to compare with the count the code logs. -/
def diff_offsets (a b : List Nat) : List Nat :=
  (List.range (min a.length b.length)).filter
    (fun i => decide (a.getD i 0 ≠ b.getD i 0))

/-- C7 (amended): `dump_and_verify` with both dumps present succeeds and
returns the first buffer on byte-for-byte equality; on inequality it fails
as a verification mismatch whose log reports the NUMBER of differing bytes
(over the zipped common prefix) — not the list of differing offsets the
claim states — and both buffers are retained unmodified in the outcome,
never merged. -/
theorem dump_and_verify_behavior (b1 b2 : List Nat) (hne : b1 ≠ b2) :
    (∀ b : List Nat, dump_and_verify_model (some b) (some b) =
      VerifyOutcome.verified b) ∧
    dump_and_verify_model (some b1) (some b2) =
      VerifyOutcome.mismatch (count_diffs b1 b2) b1 b2 ∧
    verify_success (dump_and_verify_model (some b1) (some b2)) = false := by
  refine ⟨fun b => by simp [dump_and_verify_model], ?_, ?_⟩
  · simp [dump_and_verify_model, hne]
  · simp [dump_and_verify_model, hne, verify_success]

/-- Witness for C7: two single-byte buffers differing at offset 0. -/
theorem dump_and_verify_behavior_witness :
    ([0] : List Nat) ≠ [1] ∧
    ((∀ b : List Nat, dump_and_verify_model (some b) (some b) =
        VerifyOutcome.verified b) ∧
      dump_and_verify_model (some [0]) (some [1]) =
        VerifyOutcome.mismatch (count_diffs [0] [1]) [0] [1] ∧
      verify_success (dump_and_verify_model (some [0]) (some [1])) = false) :=
  ⟨by decide, dump_and_verify_behavior [0] [1] (by decide)⟩

/-- C7 counterexample: two mismatching double dumps whose differing-offset
sets differ ({0} versus {1}) produce identical mismatch reports (count 1):
the report the code produces cannot contain "all differing offsets". -/
theorem mismatch_offsets_counterexample :
    dump_and_verify_model (some [0, 0]) (some [1, 0]) =
      VerifyOutcome.mismatch 1 [0, 0] [1, 0] ∧
    dump_and_verify_model (some [0, 0]) (some [0, 1]) =
      VerifyOutcome.mismatch 1 [0, 0] [0, 1] ∧
    diff_offsets [0, 0] [1, 0] = [0] ∧
    diff_offsets [0, 0] [0, 1] = [1] ∧
    ([0] : List Nat) ≠ [1] := by
  refine ⟨by decide, by decide, by decide, by decide, by decide⟩

/-- C10: if the first dump succeeds and the second (verification) dump
fails, `dump_and_verify` renames the first, unverified buffer to the
output file and returns `True` — success without any byte comparison ever
happening, so a successful "verified dump" does not imply two reads were
compared. -/
theorem verify_skipped_on_second_failure (b1 : List Nat) :
    dump_and_verify_model (some b1) none =
      VerifyOutcome.successUnverified b1 ∧
    verify_success (dump_and_verify_model (some b1) none) = true :=
  ⟨rfl, rfl⟩

/-! ## `flash_with_backup`

`flash_with_backup` first runs `dump_firmware(backup_file, fw_size, 0xA5)`
into a backup; if that fails it aborts; if the backup is degenerate
(`all(b == 0xFF …) or all(b == 0x00 …)`) it aborts before calling
`flash_firmware`; only otherwise does it flash.  `dump` is the
`dump_firmware` run; `flash_cmds`/`flash_ok` stand for whatever the
subsequent `flash_firmware(verify=True)` call would send and return — on
the abort paths they are unused. -/

def degenerate_backup (b : List Nat) : Bool :=
  b.all (fun x => decide (x = 0xFF)) || b.all (fun x => decide (x = 0x00))

def flash_with_backup_model (in_ldrom : Bool) (dump : DumpRun)
    (flash_cmds : List Cmd) (flash_ok : Bool) : Bool × List Cmd :=
  if !in_ldrom then (false, [])
  else
    match dump.data with
    | none => (false, dump.cmds)
    | some backup =>
      if degenerate_backup backup then (false, dump.cmds)
      else (flash_ok, dump.cmds ++ flash_cmds)

/-- C8: when the backup produced by the initial `dump_firmware` run is
degenerate (all bytes 0xFF or all bytes 0x00), `flash_with_backup` aborts
as invalid before `flash_firmware` runs: the commands sent to the device
up to that point are exactly the dump's own — the initial sync and chunk
reads — and contain no write-chunk (0xA0 write) and no erase (0xA3), so
the device flash state is unchanged on this failure path. -/
theorem backup_degenerate_aborts (size data_offset0 fuel : Nat)
    (oracle : Nat → Option (List Nat)) (flash_cmds : List Cmd)
    (flash_ok : Bool) (backup : List Nat)
    (hd : (dump_firmware_model true size data_offset0 oracle fuel).data =
      some backup)
    (hdeg : degenerate_backup backup = true) :
    flash_with_backup_model true
        (dump_firmware_model true size data_offset0 oracle fuel)
        flash_cmds flash_ok =
      (false, (dump_firmware_model true size data_offset0 oracle fuel).cmds) ∧
    ∀ c ∈ (dump_firmware_model true size data_offset0 oracle fuel).cmds,
      (∀ a d p, c ≠ Cmd.writeChunk a d p) ∧ c ≠ Cmd.eraseAll := by
  constructor
  · simp only [flash_with_backup_model, Bool.not_true, hd]
    rw [if_neg (by simp), if_pos hdeg]
  · intro c hc
    rcases dump_firmware_model_cmds true size data_offset0 oracle fuel c hc
      with h | ⟨a, h⟩ <;> subst h <;> exact ⟨fun _ _ _ => by simp, by simp⟩

/-- Witness for C8: a probe response of 0xAA bytes (layout offset 5 is
detected) followed by all-0xFF chunk responses yields the degenerate
55-byte all-0xFF backup; the flash aborts having sent only the sync and
two reads. -/
theorem backup_degenerate_aborts_witness :
    flash_with_backup_model true
        (dump_firmware_model true 55 9
          (fun n => if n = 0 then some (List.replicate 64 0xAA)
            else some (List.replicate 64 0xFF)) 3)
        [Cmd.eraseAll] true =
      (false, [Cmd.sync 1, Cmd.read 0, Cmd.read 0]) :=
  ((backup_degenerate_aborts 55 9 3
      (fun n => if n = 0 then some (List.replicate 64 0xAA)
        else some (List.replicate 64 0xFF))
      [Cmd.eraseAll] true (List.replicate 55 0xFF)
      (by decide) (by decide)).1).trans (by decide)

/-! ## Operator confirmation before destructive commands

The interactive flows are modelled as the event traces they generate: the
confirmation prompts (`input("Type 'BRICK' to proceed: ")`,
`input("  Type 'FLASH' to confirm: ")`, `input("  Are you ABSOLUTELY
sure? (yes/no): ")`) are recorded as `inputTok` events in program order,
and every device command as a `dev` event.  `bricker_main_trace` embeds
`main` of `msi_z890_bricker.py` (find device, confirm, `enter_bootloader`
— one 0xA0 mode-switch write — then `erase_firmware` — one 0xA3 write);
`flash_options_aprom` and `flash_options_ldrom` embed the two FLASH-option
menus of the dumper's `main` (choices 1/2 gate `flash_firmware` /
`flash_with_backup` behind the literal token FLASH; choice 3 compares two
files with no device I/O; choice 4 runs `verify_flash`, whose device
traffic is a `dump_firmware` run).  `flash_run`/`backup_run` stand for the
device events of the gated flash calls and are universally quantified. -/

inductive DEvent
  | inputTok (s : String)
  | dev (c : Cmd)
deriving DecidableEq, Repr

def is_write_chunk : DEvent → Bool
  | DEvent.dev (Cmd.writeChunk _ _ _) => true
  | _ => false

def is_erase : DEvent → Bool
  | DEvent.dev Cmd.eraseAll => true
  | _ => false

/-- `confirmed_before tok p t`: every event of `t` satisfying `p` is
strictly preceded by the operator entering the literal token `tok`. -/
def confirmed_before (tok : String) (p : DEvent → Bool)
    (t : List DEvent) : Prop :=
  ∀ (i : Nat) (hi : i < t.length), p (t.get ⟨i, hi⟩) = true →
    ∃ (j : Nat) (hj : j < t.length), j < i ∧
      t.get ⟨j, hj⟩ = DEvent.inputTok tok

theorem confirmed_before_of_all_false {tok : String} {p : DEvent → Bool}
    {t : List DEvent} (h : ∀ e ∈ t, p e = false) :
    confirmed_before tok p t := by
  intro i hi hp
  have hm : t.get ⟨i, hi⟩ ∈ t := by
    rw [List.get_eq_getElem]
    exact List.getElem_mem hi
  rw [h (t.get ⟨i, hi⟩) hm] at hp
  simp at hp

theorem confirmed_before_append {tok : String} {p : DEvent → Bool}
    (pre post : List DEvent) (hpre : ∀ e ∈ pre, p e = false)
    (hmem : DEvent.inputTok tok ∈ pre) :
    confirmed_before tok p (pre ++ post) := by
  intro i hi hp
  obtain ⟨j, hj, hjeq⟩ := List.mem_iff_getElem.mp hmem
  have hlen : pre.length ≤ i := by
    by_contra hlt
    push_neg at hlt
    have heq : (pre ++ post).get ⟨i, hi⟩ = pre.get ⟨i, hlt⟩ := by
      rw [List.get_eq_getElem, List.get_eq_getElem]
      exact List.getElem_append_left hlt
    have hm : pre.get ⟨i, hlt⟩ ∈ pre := by
      rw [List.get_eq_getElem]
      exact List.getElem_mem hlt
    rw [heq, hpre (pre.get ⟨i, hlt⟩) hm] at hp
    simp at hp
  refine ⟨j, ?_, by omega, ?_⟩
  · rw [List.length_append]
    omega
  · rw [List.get_eq_getElem]
    have hja : (pre ++ post)[j] = pre[j] := List.getElem_append_left hj
    rw [hja, hjeq]

theorem confirmed_before_gate (tok : String) (p : DEvent → Bool)
    (hp : p (DEvent.inputTok tok) = false) (post : List DEvent) :
    confirmed_before tok p (DEvent.inputTok tok :: post) :=
  confirmed_before_append [DEvent.inputTok tok] post
    (by
      intro e he
      rw [List.mem_singleton] at he
      rw [he]
      exact hp)
    (by simp)

inductive BrickerMode
  | APROM
  | LDROM
deriving DecidableEq, Repr

structure BrickerEnv where
  found : Option BrickerMode
  confirm : String
  bootloader_appears : Bool
deriving DecidableEq, Repr

def bricker_main_trace (env : BrickerEnv) : List DEvent :=
  match env.found with
  | none => []
  | some mode =>
    DEvent.inputTok env.confirm ::
      (if env.confirm = "BRICK" then
        match mode with
        | BrickerMode.APROM =>
          DEvent.dev Cmd.gotoLdrom ::
            (if env.bootloader_appears then [DEvent.dev Cmd.eraseAll]
              else [])
        | BrickerMode.LDROM => [DEvent.dev Cmd.eraseAll]
      else [])

def flash_options_aprom (choice : String) (fw_exists : Bool)
    (confirm1 confirm2 : String)
    (flash_run backup_run verify_run : List DEvent) : List DEvent :=
  if choice = "1" then
    if fw_exists then
      DEvent.inputTok confirm1 ::
        (if confirm1 = "FLASH" then
          DEvent.inputTok confirm2 ::
            (if confirm2 = "yes" then flash_run else [])
        else [])
    else []
  else if choice = "2" then
    if fw_exists then
      DEvent.inputTok confirm1 ::
        (if confirm1 = "FLASH" then backup_run else [])
    else []
  else if choice = "4" then
    if fw_exists then verify_run else []
  else []

def flash_options_ldrom (choice : String) (fw_exists : Bool)
    (confirm1 : String) (flash_run backup_run : List DEvent) : List DEvent :=
  if choice = "1" then
    if fw_exists then
      DEvent.inputTok confirm1 ::
        (if confirm1 = "FLASH" then flash_run else [])
    else []
  else if choice = "2" then
    if fw_exists then
      DEvent.inputTok confirm1 ::
        (if confirm1 = "FLASH" then backup_run else [])
    else []
  else []

/-- C9: in every execution trace of the interactive flows, the bricker's
erase-all command (0xA3) is transmitted only after the operator typed the
literal token BRICK, and the dumper's flash paths reach a write-chunk
transmission (`write_flash_chunk`, opcode 0xA0) only after the operator
typed the literal token FLASH; in particular the ungated verify path
(choice 4) only ever performs `dump_firmware` reads. -/
theorem destructive_needs_confirmation :
    (∀ env : BrickerEnv,
      confirmed_before "BRICK" is_erase (bricker_main_trace env)) ∧
    (∀ (choice : String) (fw_exists : Bool) (confirm1 confirm2 : String)
      (flash_run backup_run : List DEvent) (size data_offset0 fuel : Nat)
      (oracle : Nat → Option (List Nat)),
      confirmed_before "FLASH" is_write_chunk
        (flash_options_aprom choice fw_exists confirm1 confirm2 flash_run
          backup_run
          ((dump_firmware_model true size data_offset0 oracle
            fuel).cmds.map DEvent.dev))) ∧
    (∀ (choice : String) (fw_exists : Bool) (confirm1 : String)
      (flash_run backup_run : List DEvent),
      confirmed_before "FLASH" is_write_chunk
        (flash_options_ldrom choice fw_exists confirm1 flash_run
          backup_run)) := by
  refine ⟨?_, ?_, ?_⟩
  · intro env
    unfold bricker_main_trace
    cases henv : env.found with
    | none => exact confirmed_before_of_all_false (by intro e he; simp at he)
    | some mode =>
      dsimp only
      by_cases hbrick : env.confirm = "BRICK"
      · rw [hbrick, if_pos rfl]
        exact confirmed_before_gate "BRICK" is_erase rfl _
      · rw [if_neg hbrick]
        refine confirmed_before_of_all_false ?_
        intro e he
        rw [List.mem_singleton] at he
        rw [he]
        rfl
  · intro choice fw_exists confirm1 confirm2 flash_run backup_run size
      data_offset0 fuel oracle
    unfold flash_options_aprom
    by_cases h1 : choice = "1"
    · rw [if_pos h1]
      cases fw_exists with
      | false =>
        exact confirmed_before_of_all_false (by intro e he; simp at he)
      | true =>
        rw [if_pos rfl]
        by_cases hc1 : confirm1 = "FLASH"
        · rw [hc1, if_pos rfl]
          exact confirmed_before_gate "FLASH" is_write_chunk rfl _
        · rw [if_neg hc1]
          refine confirmed_before_of_all_false ?_
          intro e he
          rw [List.mem_singleton] at he
          rw [he]
          rfl
    · rw [if_neg h1]
      by_cases h2 : choice = "2"
      · rw [if_pos h2]
        cases fw_exists with
        | false =>
          exact confirmed_before_of_all_false (by intro e he; simp at he)
        | true =>
          rw [if_pos rfl]
          by_cases hc1 : confirm1 = "FLASH"
          · rw [hc1, if_pos rfl]
            exact confirmed_before_gate "FLASH" is_write_chunk rfl _
          · rw [if_neg hc1]
            refine confirmed_before_of_all_false ?_
            intro e he
            rw [List.mem_singleton] at he
            rw [he]
            rfl
      · rw [if_neg h2]
        by_cases h4 : choice = "4"
        · rw [if_pos h4]
          cases fw_exists with
          | false =>
            exact confirmed_before_of_all_false (by intro e he; simp at he)
          | true =>
            rw [if_pos rfl]
            refine confirmed_before_of_all_false ?_
            intro e he
            obtain ⟨c, hc, rfl⟩ := List.mem_map.mp he
            rcases dump_firmware_model_cmds true size data_offset0 oracle
              fuel c hc with h | ⟨a, h⟩ <;> subst h <;> rfl
        · rw [if_neg h4]
          exact confirmed_before_of_all_false (by intro e he; simp at he)
  · intro choice fw_exists confirm1 flash_run backup_run
    unfold flash_options_ldrom
    by_cases h1 : choice = "1"
    · rw [if_pos h1]
      cases fw_exists with
      | false =>
        exact confirmed_before_of_all_false (by intro e he; simp at he)
      | true =>
        rw [if_pos rfl]
        by_cases hc1 : confirm1 = "FLASH"
        · rw [hc1, if_pos rfl]
          exact confirmed_before_gate "FLASH" is_write_chunk rfl _
        · rw [if_neg hc1]
          refine confirmed_before_of_all_false ?_
          intro e he
          rw [List.mem_singleton] at he
          rw [he]
          rfl
    · rw [if_neg h1]
      by_cases h2 : choice = "2"
      · rw [if_pos h2]
        cases fw_exists with
        | false =>
          exact confirmed_before_of_all_false (by intro e he; simp at he)
        | true =>
          rw [if_pos rfl]
          by_cases hc1 : confirm1 = "FLASH"
          · rw [hc1, if_pos rfl]
            exact confirmed_before_gate "FLASH" is_write_chunk rfl _
          · rw [if_neg hc1]
            refine confirmed_before_of_all_false ?_
            intro e he
            rw [List.mem_singleton] at he
            rw [he]
            rfl
      · rw [if_neg h2]
        exact confirmed_before_of_all_false (by intro e he; simp at he)

end MSIDump
